import Mathlib

/-!
Verification of the Madgwick orientation filter of the `ahrs` repository
(`ahrs/filters/madgwick.py`), over a shallow embedding in the real numbers.

Modelling conventions:
* Quaternions are 4-tuples of reals `(w, x, y, z)`; sensor samples are
  3-tuples `(x, y, z)`.  `numpy` floating-point arithmetic is modelled by
  exact real arithmetic.
* Lean's real division satisfies `x / 0 = 0`.  Where the Python code can
  divide by an exactly-zero denominator (producing non-finite values,
  since `numpy` turns `0/0` into NaN and does not raise), a second model
  (`updateIMUX`, `updateMARGX`) marks those executions with `none`.
* `q_prod` and `q_conj` live in `ahrs/common/orientation.py`; the module
  defines them as the Hamilton product and the quaternion conjugate, so
  they are modelled from that description.
-/

/-- A quaternion `(w, x, y, z)`, the 4-element `numpy` vectors the filter
passes around (`q[0] = w`). -/
structure Quat where
  w : ℝ
  x : ℝ
  y : ℝ
  z : ℝ

/-- A tri-axial sensor sample, a 3-element `numpy` vector. -/
structure V3 where
  x : ℝ
  y : ℝ
  z : ℝ

/-- The zero quaternion, one row of `np.zeros((num_samples, 4))`. -/
def qzero : Quat := ⟨0, 0, 0, 0⟩

/-- The zero sample. -/
def v3zero : V3 := ⟨0, 0, 0⟩

/-- Componentwise quaternion addition (`numpy` `+` on 4-vectors). -/
def qadd (p q : Quat) : Quat := ⟨p.w + q.w, p.x + q.x, p.y + q.y, p.z + q.z⟩

/-- Componentwise quaternion subtraction (`numpy` `-` on 4-vectors). -/
def qsub (p q : Quat) : Quat := ⟨p.w - q.w, p.x - q.x, p.y - q.y, p.z - q.z⟩

/-- Scalar times quaternion (`numpy` scalar `*` on 4-vectors). -/
def qsmul (c : ℝ) (q : Quat) : Quat := ⟨c * q.w, c * q.x, c * q.y, c * q.z⟩

/-- Quaternion divided componentwise by a scalar (`numpy` `/` on 4-vectors). -/
noncomputable def qdivs (q : Quat) (c : ℝ) : Quat := ⟨q.w / c, q.x / c, q.y / c, q.z / c⟩

/-- Modelled from the spec: the Hamilton product `q_prod` of
`ahrs.common.orientation` (that file is not part of the sources here; the
filter module's documentation states all quaternion products are Hamilton
products). -/
def qmul (p q : Quat) : Quat :=
  ⟨p.w * q.w - p.x * q.x - p.y * q.y - p.z * q.z,
   p.w * q.x + p.x * q.w + p.y * q.z - p.z * q.y,
   p.w * q.y - p.x * q.z + p.y * q.w + p.z * q.x,
   p.w * q.z + p.x * q.y - p.y * q.x + p.z * q.w⟩

/-- Modelled from the spec: the quaternion conjugate `q_conj` of
`ahrs.common.orientation` (not part of the sources here). -/
def qconj (q : Quat) : Quat := ⟨q.w, -q.x, -q.y, -q.z⟩

/-- A sample promoted to a pure quaternion, `np.append(0., v)`. -/
def pureQuat (v : V3) : Quat := ⟨0, v.x, v.y, v.z⟩

/-- Euclidean norm of a sample, `np.linalg.norm` on a 3-vector. -/
noncomputable def vnorm (v : V3) : ℝ := Real.sqrt (v.x ^ 2 + v.y ^ 2 + v.z ^ 2)

/-- Euclidean norm of a quaternion, `np.linalg.norm` on a 4-vector. -/
noncomputable def qnorm (q : Quat) : ℝ := Real.sqrt (q.w ^ 2 + q.x ^ 2 + q.y ^ 2 + q.z ^ 2)

/-- A sample divided by its norm, `acc_sample / a_norm`. -/
noncomputable def vnormalize (v : V3) : V3 := ⟨v.x / vnorm v, v.y / vnorm v, v.z / vnorm v⟩

/-- A quaternion divided by its norm, `q / np.linalg.norm(q)`. -/
noncomputable def qnormalize (q : Quat) : Quat := qdivs q (qnorm q)

/-!
The Madgwick filter, `ahrs/filters/madgwick.py`.  The filter configuration
carries the gain (`self.gain`) and the sampling step (`self.Dt`); both are
passed explicitly below.
-/

/-- Gravity objective function `f` of `Madgwick.updateIMU` (eq. 25,
lines 638-640), evaluated on an already-normalized quaternion and an
already-normalized accelerometer sample. -/
noncomputable def fIMU (q : Quat) (a : V3) : V3 :=
  ⟨2 * (q.x * q.z - q.w * q.y) - a.x,
   2 * (q.w * q.x + q.y * q.z) - a.y,
   2 * (1 / 2 - q.x ^ 2 - q.y ^ 2) - a.z⟩

/-- Row 1 of the gravity Jacobian `J` (eq. 26, line 641). -/
def jIMU1 (q : Quat) : Quat := ⟨-2 * q.y, 2 * q.z, -2 * q.w, 2 * q.x⟩

/-- Row 2 of the gravity Jacobian `J` (eq. 26, line 642). -/
def jIMU2 (q : Quat) : Quat := ⟨2 * q.x, 2 * q.w, 2 * q.z, 2 * q.y⟩

/-- Row 3 of the gravity Jacobian `J` (eq. 26, line 643). -/
def jIMU3 (q : Quat) : Quat := ⟨0, -4 * q.x, -4 * q.y, 0⟩

/-- Gradient `J.T @ f` of `updateIMU` (line 645): the transpose of the
3-by-4 Jacobian applied to the 3-element residual, i.e. the sum of the
Jacobian's rows weighted by the residual's entries. -/
noncomputable def gradIMU (q : Quat) (a : V3) : Quat :=
  qadd (qadd (qsmul (fIMU q a).x (jIMU1 q)) (qsmul (fIMU q a).y (jIMU2 q)))
    (qsmul (fIMU q a).z (jIMU3 q))

/-- The gradient of `updateIMU` as evaluated by the code: at
`q / np.linalg.norm(q)` (line 636) and `acc_sample / a_norm` (line 635). -/
noncomputable def gradIMUAt (q : Quat) (a : V3) : Quat :=
  gradIMU (qnormalize q) (vnormalize a)

/-- The quaternion `updateIMU` integrates before renormalizing:
`q + qDot * self.Dt` (lines 632-648), where `qDot` is the gyro-derived
rate `0.5 * q_prod(q, np.append(0., gyr_sample))` minus, when the
accelerometer sample has positive norm, `self.gain` times the normalized
gradient. -/
noncomputable def preIMU (gain Dt : ℝ) (q : Quat) (g a : V3) : Quat :=
  let qDot := qsmul (1 / 2) (qmul q (pureQuat g))
  let qDot2 :=
    if 0 < vnorm a then
      qsub qDot (qsmul gain (qdivs (gradIMUAt q a) (qnorm (gradIMUAt q a))))
    else qDot
  qadd q (qsmul Dt qDot2)

/-- `Madgwick.updateIMU` (lines 588-650): if the gyroscope sample does not
have positive norm the input quaternion is returned unchanged (line 630);
otherwise the integrated quaternion is renormalized and returned
(lines 648-650). -/
noncomputable def updateIMU (gain Dt : ℝ) (q : Quat) (g a : V3) : Quat :=
  if 0 < vnorm g then qnormalize (preIMU gain Dt q g a) else q

/-- The rotated magnetometer sample
`h = q_prod(q, q_prod(np.append(0., m), q_conj(q)))` of
`Madgwick.updateMARG` (eq. 45, line 707); `m` is the normalized
magnetometer sample, `q` the raw input quaternion. -/
def hRot (q : Quat) (m : V3) : Quat := qmul q (qmul (pureQuat m) (qconj q))

/-- The reference-field components of `updateMARG` (lines 708-709):
`bx = np.sqrt(h[1]**2 + h[2]**2)` and `bz = h[3]`, i.e. with
`h = (h_w, h_x, h_y, h_z)`, `bx` is built from `h_x` and `h_y`, and
`bz = h_z`. -/
noncomputable def margRefB (q : Quat) (m : V3) : ℝ × ℝ :=
  (Real.sqrt ((hRot q m).x ^ 2 + (hRot q m).y ^ 2), (hRot q m).z)

/-- Magnetic rows (4-6) of the residual `f` of `updateMARG` (eq. 31,
lines 715-717). -/
noncomputable def fMag (q : Quat) (m : V3) (bx bz : ℝ) : V3 :=
  ⟨2 * bx * (1 / 2 - q.y ^ 2 - q.z ^ 2) + 2 * bz * (q.x * q.z - q.w * q.y) - m.x,
   2 * bx * (q.x * q.y - q.w * q.z) + 2 * bz * (q.w * q.x + q.y * q.z) - m.y,
   2 * bx * (q.w * q.y + q.x * q.z) + 2 * bz * (1 / 2 - q.x ^ 2 - q.y ^ 2) - m.z⟩

/-- Row 4 of the 6-by-4 MARG Jacobian (eq. 32, line 721). -/
def jM4 (q : Quat) (bx bz : ℝ) : Quat :=
  ⟨-2 * bz * q.y, 2 * bz * q.z, -4 * bx * q.y - 2 * bz * q.w, -4 * bx * q.z + 2 * bz * q.x⟩

/-- Row 5 of the 6-by-4 MARG Jacobian (eq. 32, line 722). -/
def jM5 (q : Quat) (bx bz : ℝ) : Quat :=
  ⟨-2 * bx * q.z + 2 * bz * q.x, 2 * bx * q.y + 2 * bz * q.w,
   2 * bx * q.x + 2 * bz * q.z, -2 * bx * q.w + 2 * bz * q.y⟩

/-- Row 6 of the 6-by-4 MARG Jacobian (eq. 32, line 723). -/
def jM6 (q : Quat) (bx bz : ℝ) : Quat :=
  ⟨2 * bx * q.y, 2 * bx * q.z - 4 * bz * q.x, 2 * bx * q.w - 4 * bz * q.y, 2 * bx * q.x⟩

/-- Gradient `J.T @ f` of `updateMARG` (line 724): rows 1-3 of `J` and of
`f` coincide with the gravity rows of `updateIMU` (lines 712-714 and
718-720), so the 6-row sum splits as the gravity gradient plus the
magnetic rows weighted by the magnetic residual. -/
noncomputable def gradMARG (q : Quat) (a m : V3) (bx bz : ℝ) : Quat :=
  qadd (gradIMU q a)
    (qadd (qadd (qsmul (fMag q m bx bz).x (jM4 q bx bz))
        (qsmul (fMag q m bx bz).y (jM5 q bx bz)))
      (qsmul (fMag q m bx bz).z (jM6 q bx bz)))

/-- The gradient of `updateMARG` as evaluated by the code: at the
normalized quaternion and normalized samples, with the reference-field
components computed from the raw quaternion and the normalized
magnetometer sample (lines 704-724). -/
noncomputable def gradMARGAt (q : Quat) (a m : V3) : Quat :=
  gradMARG (qnormalize q) (vnormalize a) (vnormalize m)
    (margRefB q (vnormalize m)).1 (margRefB q (vnormalize m)).2

/-- The quaternion `updateMARG` integrates before renormalizing,
`q + qDot * self.Dt` (lines 701-727), in the branch where both the
gyroscope and magnetometer samples have positive norm. -/
noncomputable def preMARG (gain Dt : ℝ) (q : Quat) (g a m : V3) : Quat :=
  let qDot := qsmul (1 / 2) (qmul q (pureQuat g))
  let qDot2 :=
    if 0 < vnorm a then
      qsub qDot (qsmul gain (qdivs (gradMARGAt q a m) (qnorm (gradMARGAt q a m))))
    else qDot
  qadd q (qsmul Dt qDot2)

/-- `Madgwick.updateMARG` (lines 652-729): an input quaternion returned
unchanged when the gyroscope sample does not have positive norm
(line 697); delegation to `updateIMU` when the magnetometer sample does
not have positive norm (lines 699-700); otherwise the integrated
quaternion, renormalized (lines 727-729). -/
noncomputable def updateMARG (gain Dt : ℝ) (q : Quat) (g a m : V3) : Quat :=
  if 0 < vnorm g then
    if 0 < vnorm m then qnormalize (preMARG gain Dt q g a m)
    else updateIMU gain Dt q g a
  else q

/-!
Definedness models.  `numpy` raises no exception on division by zero: it
emits a warning and produces non-finite values (`0/0` is NaN), which then
propagate to the returned quaternion.  `updateIMUX` and `updateMARGX`
follow the same control flow as `updateIMU`/`updateMARG` but return
`none` exactly on the executions in which the Python code divides by an
exactly-zero denominator, in source order: `q / np.linalg.norm(q)`
(line 636 resp. 710), `gradient /= np.linalg.norm(gradient)` (line 646
resp. 725), and the final `q /= np.linalg.norm(q)` (line 649 resp. 728).
The divisions by `a_norm` and by the magnetometer norm are guarded by the
source's own positivity checks and cannot divide by zero.
-/

/-- `Madgwick.updateIMU` with division-by-zero tracking: `none` marks a
run whose returned array is NaN-contaminated. -/
noncomputable def updateIMUX (gain Dt : ℝ) (q : Quat) (g a : V3) : Option Quat :=
  if 0 < vnorm g then
    if 0 < vnorm a ∧ qnorm q = 0 then none
    else if 0 < vnorm a ∧ qnorm (gradIMUAt q a) = 0 then none
    else if qnorm (preIMU gain Dt q g a) = 0 then none
    else some (qnormalize (preIMU gain Dt q g a))
  else some q

/-- `Madgwick.updateMARG` with division-by-zero tracking: `none` marks a
run whose returned array is NaN-contaminated. -/
noncomputable def updateMARGX (gain Dt : ℝ) (q : Quat) (g a m : V3) : Option Quat :=
  if 0 < vnorm g then
    if 0 < vnorm m then
      if 0 < vnorm a ∧ qnorm q = 0 then none
      else if 0 < vnorm a ∧ qnorm (gradMARGAt q a m) = 0 then none
      else if qnorm (preMARG gain Dt q g a m) = 0 then none
      else some (qnormalize (preMARG gain Dt q g a m))
    else updateIMUX gain Dt q g a
  else some q

/-- An error taxonomy entry of the specification. -/
inductive UpdateError where
  | degenerateOrientation

/-- Modelled from the spec: step 5 of the IMU update as the specification
words it — "Renormalize q_next to unit norm.  If norm is zero [...] fails
with DegenerateOrientation".  The source `Madgwick.updateIMU` contains no
such guard and no such error; this definition exists to be compared with
the source model. -/
noncomputable def updateIMUGuarded (gain Dt : ℝ) (q : Quat) (g a : V3) :
    Except UpdateError Quat :=
  if 0 < vnorm g then
    if qnorm (preIMU gain Dt q g a) = 0 then Except.error UpdateError.degenerateOrientation
    else Except.ok (qnormalize (preIMU gain Dt q g a))
  else Except.ok q

/-- Reference-field components as claim C2 words them:
`bx = sqrt(h_y^2 + h_z^2)` and `bz = h_z`, with `(h_w, h_x, h_y, h_z)`
the rotated magnetometer sample.  To be compared with `margRefB`, the
components the source computes. -/
noncomputable def margRefBClaimed (q : Quat) (m : V3) : ℝ × ℝ :=
  (Real.sqrt ((hRot q m).y ^ 2 + (hRot q m).z ^ 2), (hRot q m).z)

/-!
The batch driver `Madgwick._compute_all` (lines 558-586).  `Q` is an
N-by-4 array; `Q[t - 1]` is a view of row `t - 1`, and the update methods
mutate that view in place (`q += qDot * self.Dt`, `q /= np.linalg.norm(q)`,
lines 648-649 resp. 727-728) before the result is copied into row `t` by
`Q[t] = self.updateIMU(Q[t - 1], ...)`.  One loop iteration therefore
writes the update's result into BOTH row `t - 1` and row `t` (when the
gyro-norm short-circuit returns the view unmodified, writing it back to
row `t - 1` is a no-op, so the uniform description below is exact).  The
array is modelled as a function `ℕ → Quat` (rows beyond the allocated
range never being touched), read off as a list of length N at the end.
-/

/-- One iteration of the `_compute_all` loop at `t = k + 1`: the update is
applied to row `k`, and its result lands in row `k` (in-place mutation of
the `Q[t - 1]` view) as well as in row `k + 1` (the `Q[t] = ...`
assignment). -/
def batchStep (upd : Quat → ℕ → Quat) (Q : ℕ → Quat) (k : ℕ) : ℕ → Quat :=
  Function.update (Function.update Q k (upd (Q k) (k + 1))) (k + 1) (upd (Q k) (k + 1))

/-- The array state after the first `k` iterations of the `_compute_all`
loop, starting from `np.zeros((N, 4))` with `Q[0] = self.q0` (lines
574-575). -/
def batchState (upd : Quat → ℕ → Quat) (seed : Quat) : ℕ → ℕ → Quat
  | 0 => fun i => if i = 0 then seed else qzero
  | k + 1 => batchStep upd (batchState upd seed k) k

/-- The list `Q` returned by `_compute_all` for N samples: the rows of the
array after all `N - 1` loop iterations. -/
def batchRun (upd : Quat → ℕ → Quat) (seed : Quat) (N : ℕ) : List Quat :=
  (List.range N).map (batchState upd seed (N - 1))

/-- The intended per-sample recurrence: `v 0` is the seed and
`v t = upd (v (t-1)) t`, i.e. the value the update step at sample `t`
actually computes (its input row `t - 1` holds `v (t-1)` when step `t`
runs). -/
def pureSeq (upd : Quat → ℕ → Quat) (seed : Quat) : ℕ → Quat
  | 0 => seed
  | t + 1 => upd (pureSeq upd seed t) (t + 1)

/-- The `_compute_all` IMU update of sample `t` as a function of the row
it reads (line 579). -/
noncomputable def stepIMU (gain Dt : ℝ) (gyr acc : List V3) : Quat → ℕ → Quat :=
  fun q t => updateIMU gain Dt q (gyr.getD t v3zero) (acc.getD t v3zero)

/-- The `_compute_all` MARG update of sample `t` as a function of the row
it reads (line 585). -/
noncomputable def stepMARG (gain Dt : ℝ) (gyr acc mag : List V3) : Quat → ℕ → Quat :=
  fun q t => updateMARG gain Dt q (gyr.getD t v3zero) (acc.getD t v3zero) (mag.getD t v3zero)

/-- `_compute_all` in the IMU configuration (lines 573-580), after the
shape validation: `num_samples = len(self.acc)` rows. -/
noncomputable def computeAllIMU (gain Dt : ℝ) (q0 : Quat) (gyr acc : List V3) : List Quat :=
  batchRun (stepIMU gain Dt gyr acc) q0 acc.length

/-- `_compute_all` in the MARG configuration (lines 581-586), after the
shape validation. -/
noncomputable def computeAllMARG (gain Dt : ℝ) (q0 : Quat) (gyr acc mag : List V3) :
    List Quat :=
  batchRun (stepMARG gain Dt gyr acc mag) q0 acc.length

/-- A sensor-array row read as a sample: the update steps only ever read
components 0, 1, 2 of a row. -/
def toV3 (r : List ℝ) : V3 := ⟨r.getD 0 0, r.getD 1 0, r.getD 2 0⟩

/-- The `numpy` shape of a (rectangular) 2-D array, recorded as the list
of row widths; two rectangular arrays have equal `numpy` shapes exactly
when these lists coincide. -/
def shapeOf (a : List (List ℝ)) : List ℕ := a.map List.length

/-- `Madgwick._compute_all` including its shape validation (lines
571-586): `ValueError("acc and gyr are not the same size")` when the
accelerometer and gyroscope arrays differ in shape, and, in the MARG
configuration, `ValueError("mag and gyr are not the same size")` when the
magnetometer array's shape differs; otherwise the computed rows. -/
noncomputable def computeAllRaw (gain Dt : ℝ) (q0 : Quat) (gyr acc : List (List ℝ))
    (mag : Option (List (List ℝ))) : Except String (List Quat) :=
  if shapeOf acc ≠ shapeOf gyr then Except.error "acc and gyr are not the same size"
  else
    match mag with
    | none => Except.ok (computeAllIMU gain Dt q0 (gyr.map toV3) (acc.map toV3))
    | some mg =>
      if shapeOf mg ≠ shapeOf gyr then Except.error "mag and gyr are not the same size"
      else Except.ok (computeAllMARG gain Dt q0 (gyr.map toV3) (acc.map toV3) (mg.map toV3))

theorem vnorm_nonneg (v : V3) : 0 ≤ vnorm v := Real.sqrt_nonneg _

theorem qnorm_nonneg (q : Quat) : 0 ≤ qnorm q := Real.sqrt_nonneg _

theorem vnorm_v3zero : vnorm v3zero = 0 := by
  simp [vnorm, v3zero]

theorem qnorm_qzero : qnorm qzero = 0 := by
  simp [qnorm, qzero]

theorem vnorm_not_pos {v : V3} (h : ¬ 0 < vnorm v) : vnorm v = 0 :=
  le_antisymm (not_lt.mp h) (vnorm_nonneg v)

theorem qnorm_eq_zero_iff (q : Quat) : qnorm q = 0 ↔ q = qzero := by
  obtain ⟨w, x, y, z⟩ := q
  unfold qnorm qzero
  rw [Real.sqrt_eq_zero']
  constructor
  · intro h
    simp only at h
    have hw : w = 0 := by nlinarith [sq_nonneg w, sq_nonneg x, sq_nonneg y, sq_nonneg z]
    have hx : x = 0 := by nlinarith [sq_nonneg w, sq_nonneg x, sq_nonneg y, sq_nonneg z]
    have hy : y = 0 := by nlinarith [sq_nonneg w, sq_nonneg x, sq_nonneg y, sq_nonneg z]
    have hz : z = 0 := by nlinarith [sq_nonneg w, sq_nonneg x, sq_nonneg y, sq_nonneg z]
    simp [hw, hx, hy, hz]
  · intro h
    simp only [Quat.mk.injEq] at h
    obtain ⟨hw, hx, hy, hz⟩ := h
    simp [hw, hx, hy, hz]

theorem qnorm_pos_of_ne {q : Quat} (h : q ≠ qzero) : 0 < qnorm q :=
  lt_of_le_of_ne (qnorm_nonneg q) (fun h0 => h ((qnorm_eq_zero_iff q).mp h0.symm))

/-- Renormalizing a nonzero quaternion yields a unit-norm quaternion. -/
theorem qnorm_qnormalize {q : Quat} (h : q ≠ qzero) : qnorm (qnormalize q) = 1 := by
  have hc : 0 < qnorm q := qnorm_pos_of_ne h
  have hs : (0:ℝ) ≤ q.w ^ 2 + q.x ^ 2 + q.y ^ 2 + q.z ^ 2 := by positivity
  have hsq : qnorm q ^ 2 = q.w ^ 2 + q.x ^ 2 + q.y ^ 2 + q.z ^ 2 := Real.sq_sqrt hs
  have hrw : (q.w / qnorm q) ^ 2 + (q.x / qnorm q) ^ 2 + (q.y / qnorm q) ^ 2
      + (q.z / qnorm q) ^ 2
      = (q.w ^ 2 + q.x ^ 2 + q.y ^ 2 + q.z ^ 2) / qnorm q ^ 2 := by
    field_simp
  show Real.sqrt ((q.w / qnorm q) ^ 2 + (q.x / qnorm q) ^ 2 + (q.y / qnorm q) ^ 2
      + (q.z / qnorm q) ^ 2) = 1
  rw [hrw, ← hsq, div_self (by positivity), Real.sqrt_one]

/-- Row contents after `k` loop iterations: rows below `k` hold the NEXT
step's output, row `k` holds step `k`'s output, rows above `k` still hold
zeros. -/
theorem batchState_eq (upd : Quat → ℕ → Quat) (seed : Quat) :
    ∀ k i, batchState upd seed k i =
      if i < k then pureSeq upd seed (i + 1)
      else if i = k then pureSeq upd seed k
      else qzero := by
  intro k
  induction k with
  | zero =>
    intro i
    by_cases h : i = 0 <;> simp [batchState, pureSeq, h]
  | succ k ih =>
    intro i
    have hk : batchState upd seed k k = pureSeq upd seed k := by
      rw [ih k]; simp
    simp only [batchState, batchStep, hk]
    rcases Nat.lt_trichotomy i (k + 1) with hlt | heq | hgt
    · rcases Nat.lt_or_ge i k with hik | hik
      · rw [Function.update_noteq (by omega), Function.update_noteq (by omega), ih i,
          if_pos hik, if_pos hlt]
      · have hik' : i = k := by omega
        subst hik'
        rw [Function.update_noteq (by omega), Function.update_same, if_pos hlt]
        rfl
    · subst heq
      rw [Function.update_same, if_neg (lt_irrefl _), if_pos rfl]
      rfl
    · rw [Function.update_noteq (by omega), Function.update_noteq (by omega), ih i,
        if_neg (by omega), if_neg (by omega), if_neg (by omega), if_neg (by omega)]

/-- Reading an entry of the final array. -/
theorem batchRun_getD (upd : Quat → ℕ → Quat) (seed : Quat) (N t : ℕ) (ht : t < N) :
    (batchRun upd seed N).getD t qzero = batchState upd seed (N - 1) t := by
  unfold batchRun
  rw [List.getD_eq_getElem?_getD, List.getElem?_map, List.getElem?_range ht]
  rfl

/-- The stored sequence of a batch run over at least two samples: every
row `t ≤ N - 2` holds the output of step `t + 1`, the last row holds the
output of step `N - 1`, and the last two rows coincide. -/
theorem batchRun_aliased (upd : Quat → ℕ → Quat) (seed : Quat) (N : ℕ) (hN : 2 ≤ N) :
    (∀ t, t ≤ N - 2 → (batchRun upd seed N).getD t qzero = pureSeq upd seed (t + 1)) ∧
    (batchRun upd seed N).getD (N - 1) qzero = pureSeq upd seed (N - 1) ∧
    (batchRun upd seed N).getD (N - 2) qzero = (batchRun upd seed N).getD (N - 1) qzero := by
  have h1 : ∀ t, t ≤ N - 2 → (batchRun upd seed N).getD t qzero = pureSeq upd seed (t + 1) := by
    intro t ht
    rw [batchRun_getD upd seed N t (by omega), batchState_eq, if_pos (by omega)]
  have h2 : (batchRun upd seed N).getD (N - 1) qzero = pureSeq upd seed (N - 1) := by
    rw [batchRun_getD upd seed N (N - 1) (by omega), batchState_eq,
      if_neg (lt_irrefl _), if_pos rfl]
  refine ⟨h1, h2, ?_⟩
  rw [h1 (N - 2) le_rfl, h2]
  congr 1
  omega

/-- Norm of a sample, read off from a square decomposition. -/
theorem vnorm_eq {v : V3} {c : ℝ} (hc : 0 ≤ c)
    (h : v.x ^ 2 + v.y ^ 2 + v.z ^ 2 = c ^ 2) : vnorm v = c := by
  unfold vnorm
  rw [h, Real.sqrt_sq hc]

/-- Norm of a quaternion, read off from a square decomposition. -/
theorem qnorm_eq {q : Quat} {c : ℝ} (hc : 0 ≤ c)
    (h : q.w ^ 2 + q.x ^ 2 + q.y ^ 2 + q.z ^ 2 = c ^ 2) : qnorm q = c := by
  unfold qnorm
  rw [h, Real.sqrt_sq hc]

theorem qnormalize_unitW : qnormalize ⟨1, 0, 0, 0⟩ = ⟨1, 0, 0, 0⟩ := by
  have h : qnorm ⟨1, 0, 0, 0⟩ = 1 := qnorm_eq (by norm_num) (by norm_num)
  unfold qnormalize qdivs
  rw [h]
  norm_num

theorem qnormalize_unitX : qnormalize ⟨0, 1, 0, 0⟩ = ⟨0, 1, 0, 0⟩ := by
  have h : qnorm ⟨0, 1, 0, 0⟩ = 1 := qnorm_eq (by norm_num) (by norm_num)
  unfold qnormalize qdivs
  rw [h]
  norm_num

theorem vnormalize_unitX : vnormalize ⟨1, 0, 0⟩ = ⟨1, 0, 0⟩ := by
  have h : vnorm ⟨1, 0, 0⟩ = 1 := vnorm_eq (by norm_num) (by norm_num)
  unfold vnormalize
  rw [h]
  norm_num

theorem vnormalize_unitZ : vnormalize ⟨0, 0, 1⟩ = ⟨0, 0, 1⟩ := by
  have h : vnorm ⟨0, 0, 1⟩ = 1 := vnorm_eq (by norm_num) (by norm_num)
  unfold vnormalize
  rw [h]
  norm_num

/-- The magnetometer sample `(1, 0, 0)` rotated by the identity
quaternion is itself. -/
theorem hRot_unitW_unitX : hRot ⟨1, 0, 0, 0⟩ ⟨1, 0, 0⟩ = ⟨0, 1, 0, 0⟩ := by
  simp only [hRot, pureQuat, qconj, qmul]
  norm_num

/-- The gradient `J.T @ f` of the IMU update, componentwise. -/
theorem gradIMU_explicit (n : Quat) (av : V3) :
    gradIMU n av =
      ⟨-2 * n.y * (2 * (n.x * n.z - n.w * n.y) - av.x)
         + 2 * n.x * (2 * (n.w * n.x + n.y * n.z) - av.y),
       2 * n.z * (2 * (n.x * n.z - n.w * n.y) - av.x)
         + 2 * n.w * (2 * (n.w * n.x + n.y * n.z) - av.y)
         - 4 * n.x * (2 * (1 / 2 - n.x ^ 2 - n.y ^ 2) - av.z),
       -2 * n.w * (2 * (n.x * n.z - n.w * n.y) - av.x)
         + 2 * n.z * (2 * (n.w * n.x + n.y * n.z) - av.y)
         - 4 * n.y * (2 * (1 / 2 - n.x ^ 2 - n.y ^ 2) - av.z),
       2 * n.x * (2 * (n.x * n.z - n.w * n.y) - av.x)
         + 2 * n.y * (2 * (n.w * n.x + n.y * n.z) - av.y)⟩ := by
  simp only [gradIMU, fIMU, jIMU1, jIMU2, jIMU3, qadd, qsmul, Quat.mk.injEq]
  refine ⟨by ring, by ring, by ring, by ring⟩

/-- C9: a gyroscope sample of zero norm makes both `updateIMU` and
`updateMARG` return the input quaternion unchanged — a silent
short-circuit, not an error. -/
theorem c9_zero_gyro_short_circuit (gain Dt : ℝ) (q : Quat) (g a m : V3)
    (hg : vnorm g = 0) :
    updateIMU gain Dt q g a = q ∧ updateMARG gain Dt q g a m = q := by
  unfold updateIMU updateMARG
  rw [hg]
  simp

theorem c9_witness :
    vnorm v3zero = 0 ∧
    updateIMU 1 1 ⟨1, 0, 0, 0⟩ v3zero v3zero = ⟨1, 0, 0, 0⟩ ∧
    updateMARG 1 1 ⟨1, 0, 0, 0⟩ v3zero v3zero v3zero = ⟨1, 0, 0, 0⟩ :=
  ⟨vnorm_v3zero,
   (c9_zero_gyro_short_circuit 1 1 ⟨1, 0, 0, 0⟩ v3zero v3zero v3zero vnorm_v3zero).1,
   (c9_zero_gyro_short_circuit 1 1 ⟨1, 0, 0, 0⟩ v3zero v3zero v3zero vnorm_v3zero).2⟩

/-- C10: a magnetometer sample of zero norm makes `updateMARG` coincide
with `updateIMU` on the same quaternion and gyro/accel samples. -/
theorem c10_zero_mag_delegates (gain Dt : ℝ) (q : Quat) (g a m : V3)
    (hm : vnorm m = 0) :
    updateMARG gain Dt q g a m = updateIMU gain Dt q g a := by
  unfold updateMARG
  rw [hm]
  by_cases hg : 0 < vnorm g
  · simp [hg]
  · simp [hg, updateIMU]

theorem c10_witness :
    vnorm v3zero = 0 ∧
    updateMARG 1 1 ⟨1, 0, 0, 0⟩ ⟨1, 0, 0⟩ ⟨0, 1, 0⟩ v3zero
      = updateIMU 1 1 ⟨1, 0, 0, 0⟩ ⟨1, 0, 0⟩ ⟨0, 1, 0⟩ :=
  ⟨vnorm_v3zero, c10_zero_mag_delegates 1 1 ⟨1, 0, 0, 0⟩ ⟨1, 0, 0⟩ ⟨0, 1, 0⟩ v3zero vnorm_v3zero⟩

/-- C4: the update steps integrate and renormalize in place on the row
view they receive, so after a batch run over `N ≥ 2` samples every stored
row `Q[t]` with `t ≤ N - 2` holds the output of update step `t + 1`
(in particular `Q[0]` holds step 1's output, not the seed), the last row
holds the output of step `N - 1`, and `Q[N-2] = Q[N-1]`; for both the IMU
and the MARG batch. -/
theorem c4_inplace_aliasing (gain Dt : ℝ) (q0 : Quat) (gyr acc mag : List V3)
    (hN : 2 ≤ acc.length) :
    ((∀ t, t ≤ acc.length - 2 →
        (computeAllIMU gain Dt q0 gyr acc).getD t qzero
          = pureSeq (stepIMU gain Dt gyr acc) q0 (t + 1)) ∧
      (computeAllIMU gain Dt q0 gyr acc).getD (acc.length - 1) qzero
        = pureSeq (stepIMU gain Dt gyr acc) q0 (acc.length - 1) ∧
      (computeAllIMU gain Dt q0 gyr acc).getD (acc.length - 2) qzero
        = (computeAllIMU gain Dt q0 gyr acc).getD (acc.length - 1) qzero) ∧
    ((∀ t, t ≤ acc.length - 2 →
        (computeAllMARG gain Dt q0 gyr acc mag).getD t qzero
          = pureSeq (stepMARG gain Dt gyr acc mag) q0 (t + 1)) ∧
      (computeAllMARG gain Dt q0 gyr acc mag).getD (acc.length - 1) qzero
        = pureSeq (stepMARG gain Dt gyr acc mag) q0 (acc.length - 1) ∧
      (computeAllMARG gain Dt q0 gyr acc mag).getD (acc.length - 2) qzero
        = (computeAllMARG gain Dt q0 gyr acc mag).getD (acc.length - 1) qzero) :=
  ⟨batchRun_aliased (stepIMU gain Dt gyr acc) q0 acc.length hN,
   batchRun_aliased (stepMARG gain Dt gyr acc mag) q0 acc.length hN⟩

theorem c4_witness :
    2 ≤ ([v3zero, v3zero] : List V3).length ∧
    (computeAllIMU 1 1 ⟨1, 0, 0, 0⟩ [v3zero, ⟨2, 0, 0⟩] [v3zero, v3zero]).getD 0 qzero
      = pureSeq (stepIMU 1 1 [v3zero, ⟨2, 0, 0⟩] [v3zero, v3zero]) ⟨1, 0, 0, 0⟩ 1 ∧
    (computeAllIMU 1 1 ⟨1, 0, 0, 0⟩ [v3zero, ⟨2, 0, 0⟩] [v3zero, v3zero]).getD 0 qzero
      = (computeAllIMU 1 1 ⟨1, 0, 0, 0⟩ [v3zero, ⟨2, 0, 0⟩] [v3zero, v3zero]).getD 1 qzero ∧
    (computeAllMARG 1 1 ⟨1, 0, 0, 0⟩ [v3zero, ⟨2, 0, 0⟩] [v3zero, v3zero] [v3zero, v3zero]).getD 0 qzero
      = (computeAllMARG 1 1 ⟨1, 0, 0, 0⟩ [v3zero, ⟨2, 0, 0⟩] [v3zero, v3zero] [v3zero, v3zero]).getD 1 qzero :=
  ⟨by simp,
   (c4_inplace_aliasing 1 1 ⟨1, 0, 0, 0⟩ [v3zero, ⟨2, 0, 0⟩] [v3zero, v3zero]
      [v3zero, v3zero] (by simp)).1.1 0 (by simp),
   (c4_inplace_aliasing 1 1 ⟨1, 0, 0, 0⟩ [v3zero, ⟨2, 0, 0⟩] [v3zero, v3zero]
      [v3zero, v3zero] (by simp)).1.2.2,
   (c4_inplace_aliasing 1 1 ⟨1, 0, 0, 0⟩ [v3zero, ⟨2, 0, 0⟩] [v3zero, v3zero]
      [v3zero, v3zero] (by simp)).2.2.2⟩

/-- C3: the stored batch sequence does not keep the seed in row 0.  With
two samples (step 1 using gyro `(2,0,0)`, zero accel), row 0 of the
stored sequence differs from the seed `(1,0,0,0)`: the in-place update
overwrote it with step 1's output. -/
theorem c3_seed_overwritten :
    (computeAllIMU 1 1 ⟨1, 0, 0, 0⟩ [v3zero, ⟨2, 0, 0⟩] [v3zero, v3zero]).getD 0 qzero
      ≠ ⟨1, 0, 0, 0⟩ := by
  have hg2 : vnorm ⟨2, 0, 0⟩ = 2 := vnorm_eq (by norm_num) (by norm_num)
  have hupd : updateIMU 1 1 ⟨1, 0, 0, 0⟩ ⟨2, 0, 0⟩ v3zero
      = ⟨1 / Real.sqrt 2, 1 / Real.sqrt 2, 0, 0⟩ := by
    have hpre : preIMU 1 1 ⟨1, 0, 0, 0⟩ ⟨2, 0, 0⟩ v3zero = ⟨1, 1, 0, 0⟩ := by
      simp only [preIMU, vnorm_v3zero, lt_irrefl, if_false]
      simp [qadd, qsmul, qmul, pureQuat]
    have hn : qnorm ⟨1, 1, 0, 0⟩ = Real.sqrt 2 :=
      qnorm_eq (Real.sqrt_nonneg 2) (by rw [Real.sq_sqrt (by norm_num : (0:ℝ) ≤ 2)]; norm_num)
    unfold updateIMU
    rw [if_pos (by rw [hg2]; norm_num), hpre]
    unfold qnormalize qdivs
    rw [hn]
    norm_num
  have hmain : (computeAllIMU 1 1 ⟨1, 0, 0, 0⟩ [v3zero, ⟨2, 0, 0⟩] [v3zero, v3zero]).getD 0 qzero
      = updateIMU 1 1 ⟨1, 0, 0, 0⟩ ⟨2, 0, 0⟩ v3zero := by
    show (batchRun (stepIMU 1 1 [v3zero, ⟨2, 0, 0⟩] [v3zero, v3zero]) ⟨1, 0, 0, 0⟩ 2).getD 0 qzero = _
    rw [batchRun_getD _ _ 2 0 (by norm_num), batchState_eq, if_pos (by norm_num)]
    simp [pureSeq, stepIMU, List.getD]
  rw [hmain, hupd]
  intro hcon
  rw [Quat.mk.injEq] at hcon
  have h2 : (0:ℝ) < 1 / Real.sqrt 2 := by positivity
  have := hcon.2.1
  linarith

/-- C8 (amended): the batch validation errors exactly when the
accelerometer array's shape differs from the gyroscope array's, or a
magnetometer array is present and its shape differs; a per-sample width
common to all arrays is accepted even when it is not 3. -/
theorem c8_amended_shape_iff (gain Dt : ℝ) (q0 : Quat) (gyr acc : List (List ℝ))
    (mag : Option (List (List ℝ))) :
    (∃ e, computeAllRaw gain Dt q0 gyr acc mag = Except.error e) ↔
      (shapeOf acc ≠ shapeOf gyr ∨
        ∃ mg, mag = some mg ∧ shapeOf mg ≠ shapeOf gyr) := by
  rcases mag with _ | mg
  · by_cases h1 : shapeOf acc = shapeOf gyr
    · simp [computeAllRaw, h1]
    · simp [computeAllRaw, h1]
  · by_cases h1 : shapeOf acc = shapeOf gyr
    · by_cases h2 : shapeOf mg = shapeOf gyr
      · simp [computeAllRaw, h1, h2]
      · simp [computeAllRaw, h1, h2]
    · simp [computeAllRaw, h1]

/-- C8 counterexample: gyroscope and accelerometer arrays whose single
sample has 4 components are accepted — no error is raised, the stored
sequence is the seed — although the claim requires a DimensionMismatch
failure for samples that are not exactly 3 components wide. -/
theorem c8_counterexample :
    computeAllRaw 1 1 ⟨1, 0, 0, 0⟩ [[1, 2, 3, 4]] [[1, 2, 3, 4]] none
      = Except.ok [⟨1, 0, 0, 0⟩] := by
  unfold computeAllRaw
  rw [if_neg (by simp [shapeOf])]
  simp [computeAllIMU, batchRun, batchState, List.range_succ]

/-- C1: with nonzero-norm gyroscope and accelerometer samples and a
nonzero gradient, `updateIMU` returns the normalization of
`q_prev + (1/2 * q_prev * (0,gyro) - gain * grad/|grad|) * Dt`, where the
gradient is the transposed fixed 3-by-4 Jacobian applied to the residual
`f = (2(qx qz - qw qy) - ax, 2(qw qx + qy qz) - ay, 2(1/2 - qx^2 - qy^2) - az)`,
both evaluated at the normalized input quaternion and the normalized
accelerometer sample. -/
theorem c1_updateIMU_closed_form (gain Dt : ℝ) (q : Quat) (g a : V3)
    (hg : 0 < vnorm g) (ha : 0 < vnorm a)
    (hgrad : gradIMU (qnormalize q) (vnormalize a) ≠ qzero) :
    updateIMU gain Dt q g a =
      (let n := qnormalize q
       let av := vnormalize a
       let f1 := 2 * (n.x * n.z - n.w * n.y) - av.x
       let f2 := 2 * (n.w * n.x + n.y * n.z) - av.y
       let f3 := 2 * (1 / 2 - n.x ^ 2 - n.y ^ 2) - av.z
       let grad : Quat :=
         ⟨-2 * n.y * f1 + 2 * n.x * f2,
          2 * n.z * f1 + 2 * n.w * f2 - 4 * n.x * f3,
          -2 * n.w * f1 + 2 * n.z * f2 - 4 * n.y * f3,
          2 * n.x * f1 + 2 * n.y * f2⟩
       qnormalize (qadd q (qsmul Dt
         (qsub (qsmul (1 / 2) (qmul q (pureQuat g)))
           (qsmul gain (qdivs grad (qnorm grad))))))) := by
  simp only [updateIMU, preIMU, gradIMUAt, if_pos hg, if_pos ha, gradIMU_explicit]

theorem c1_witness :
    0 < vnorm ⟨3, 4, 0⟩ ∧ 0 < vnorm ⟨1, 0, 0⟩ ∧
    gradIMU (qnormalize ⟨1, 0, 0, 0⟩) (vnormalize ⟨1, 0, 0⟩) ≠ qzero ∧
    updateIMU 1 1 ⟨1, 0, 0, 0⟩ ⟨3, 4, 0⟩ ⟨1, 0, 0⟩ =
      (let n := qnormalize ⟨1, 0, 0, 0⟩
       let av := vnormalize ⟨1, 0, 0⟩
       let f1 := 2 * (n.x * n.z - n.w * n.y) - av.x
       let f2 := 2 * (n.w * n.x + n.y * n.z) - av.y
       let f3 := 2 * (1 / 2 - n.x ^ 2 - n.y ^ 2) - av.z
       let grad : Quat :=
         ⟨-2 * n.y * f1 + 2 * n.x * f2,
          2 * n.z * f1 + 2 * n.w * f2 - 4 * n.x * f3,
          -2 * n.w * f1 + 2 * n.z * f2 - 4 * n.y * f3,
          2 * n.x * f1 + 2 * n.y * f2⟩
       qnormalize (qadd ⟨1, 0, 0, 0⟩ (qsmul 1
         (qsub (qsmul (1 / 2) (qmul ⟨1, 0, 0, 0⟩ (pureQuat ⟨3, 4, 0⟩)))
           (qsmul 1 (qdivs grad (qnorm grad))))))) := by
  have h1 : 0 < vnorm ⟨3, 4, 0⟩ := by
    rw [@vnorm_eq ⟨3, 4, 0⟩ 5 (by norm_num) (by norm_num)]
    norm_num
  have h2 : 0 < vnorm ⟨1, 0, 0⟩ := by
    rw [@vnorm_eq ⟨1, 0, 0⟩ 1 (by norm_num) (by norm_num)]
    norm_num
  have h3 : gradIMU (qnormalize ⟨1, 0, 0, 0⟩) (vnormalize ⟨1, 0, 0⟩) ≠ qzero := by
    rw [qnormalize_unitW, vnormalize_unitX, gradIMU_explicit]
    intro hcon
    simp only [qzero, Quat.mk.injEq] at hcon
    norm_num at hcon
  exact ⟨h1, h2, h3, c1_updateIMU_closed_form 1 1 ⟨1, 0, 0, 0⟩ ⟨3, 4, 0⟩ ⟨1, 0, 0⟩ h1 h2 h3⟩

/-- C2 (amended): in `updateMARG` with nonzero gyro, mag and accel norms,
the reference-field components used in the magnetic residual are
`bx = sqrt(h_x^2 + h_y^2)` and `bz = h_z` — the east component `h_y` is
absorbed into `bx` (not `h_x` discarded) — where
`h = q_prev * (0,m) * conj(q_prev)` is the normalized magnetometer sample
rotated by the raw previous quaternion. -/
theorem c2_amended_refField (gain Dt : ℝ) (q : Quat) (g a m : V3)
    (hg : 0 < vnorm g) (hm : 0 < vnorm m) (ha : 0 < vnorm a) :
    updateMARG gain Dt q g a m =
      (let mv := vnormalize m
       let h := qmul q (qmul (pureQuat mv) (qconj q))
       let bx := Real.sqrt (h.x ^ 2 + h.y ^ 2)
       let bz := h.z
       let grad := gradMARG (qnormalize q) (vnormalize a) mv bx bz
       qnormalize (qadd q (qsmul Dt (qsub (qsmul (1 / 2) (qmul q (pureQuat g)))
         (qsmul gain (qdivs grad (qnorm grad))))))) := by
  simp only [updateMARG, preMARG, gradMARGAt, margRefB, hRot, if_pos hg, if_pos hm, if_pos ha]

/-- C2 counterexample: at `q = (1,0,0,0)` and normalized magnetometer
sample `m = (1,0,0)`, the rotated field is `h = (0,1,0,0)`, the source
computes `(bx, bz) = (1, 0)`, while the claim's formula
`bx = sqrt(h_y^2 + h_z^2)` yields `(0, 0)`. -/
theorem c2_counterexample :
    margRefB ⟨1, 0, 0, 0⟩ ⟨1, 0, 0⟩ = (1, 0) ∧
    margRefBClaimed ⟨1, 0, 0, 0⟩ ⟨1, 0, 0⟩ = (0, 0) ∧
    margRefB ⟨1, 0, 0, 0⟩ ⟨1, 0, 0⟩ ≠ margRefBClaimed ⟨1, 0, 0, 0⟩ ⟨1, 0, 0⟩ := by
  have h1 : margRefB ⟨1, 0, 0, 0⟩ ⟨1, 0, 0⟩ = (1, 0) := by
    unfold margRefB
    rw [hRot_unitW_unitX]
    norm_num
  have h2 : margRefBClaimed ⟨1, 0, 0, 0⟩ ⟨1, 0, 0⟩ = (0, 0) := by
    unfold margRefBClaimed
    rw [hRot_unitW_unitX]
    norm_num
  refine ⟨h1, h2, ?_⟩
  rw [h1, h2]
  intro hcon
  rw [Prod.mk.injEq] at hcon
  exact one_ne_zero hcon.1

theorem c2_witness :
    0 < vnorm ⟨1, 0, 0⟩ ∧ 0 < vnorm ⟨0, 0, 1⟩ ∧
    updateMARG 1 1 ⟨1, 0, 0, 0⟩ ⟨1, 0, 0⟩ ⟨0, 0, 1⟩ ⟨1, 0, 0⟩ =
      (let mv := vnormalize ⟨1, 0, 0⟩
       let h := qmul ⟨1, 0, 0, 0⟩ (qmul (pureQuat mv) (qconj ⟨1, 0, 0, 0⟩))
       let bx := Real.sqrt (h.x ^ 2 + h.y ^ 2)
       let bz := h.z
       let grad := gradMARG (qnormalize ⟨1, 0, 0, 0⟩) (vnormalize ⟨0, 0, 1⟩) mv bx bz
       qnormalize (qadd ⟨1, 0, 0, 0⟩ (qsmul 1 (qsub
         (qsmul (1 / 2) (qmul ⟨1, 0, 0, 0⟩ (pureQuat ⟨1, 0, 0⟩)))
         (qsmul 1 (qdivs grad (qnorm grad))))))) := by
  have h1 : 0 < vnorm ⟨1, 0, 0⟩ := by
    rw [@vnorm_eq ⟨1, 0, 0⟩ 1 (by norm_num) (by norm_num)]
    norm_num
  have h2 : 0 < vnorm ⟨0, 0, 1⟩ := by
    rw [@vnorm_eq ⟨0, 0, 1⟩ 1 (by norm_num) (by norm_num)]
    norm_num
  exact ⟨h1, h2,
    c2_amended_refField 1 1 ⟨1, 0, 0, 0⟩ ⟨1, 0, 0⟩ ⟨0, 0, 1⟩ ⟨1, 0, 0⟩ h1 h1 h2⟩

/-- C6 (amended): the code does not skip the gradient-descent correction
when the gradient is exactly zero — with nonzero gyro/accel(/mag) norms
and a nonzero input quaternion, a zero gradient makes both update steps
divide the gradient by its zero norm, so the returned array is
NaN-contaminated (`none`) instead of the pure gyro-integration update. -/
theorem c6_amended_zero_gradient_nan (gain Dt : ℝ) (q : Quat) (g a m : V3)
    (hg : 0 < vnorm g) (ha : 0 < vnorm a) (hm : 0 < vnorm m)
    (hq : qnorm q ≠ 0)
    (hgi : gradIMUAt q a = qzero) (hgm : gradMARGAt q a m = qzero) :
    updateIMUX gain Dt q g a = none ∧ updateMARGX gain Dt q g a m = none := by
  constructor
  · unfold updateIMUX
    rw [if_pos hg, if_neg (fun hc => hq hc.2),
      if_pos ⟨ha, by rw [hgi]; exact qnorm_qzero⟩]
  · unfold updateMARGX
    rw [if_pos hg, if_pos hm, if_neg (fun hc => hq hc.2),
      if_pos ⟨ha, by rw [hgm]; exact qnorm_qzero⟩]

/-- C6 counterexample: at the perfectly aligned input `q = (1,0,0,0)`,
`a = (0,0,1)` with gyro `(1,0,0)`, the gradient is exactly zero; the
update divides by its zero norm (`none`), and in particular does not
return the pure gyro-integration update the claim promises. -/
theorem c6_counterexample :
    updateIMUX 1 1 ⟨1, 0, 0, 0⟩ ⟨1, 0, 0⟩ ⟨0, 0, 1⟩ = none ∧
    updateIMUX 1 1 ⟨1, 0, 0, 0⟩ ⟨1, 0, 0⟩ ⟨0, 0, 1⟩ ≠
      some (qnormalize (qadd ⟨1, 0, 0, 0⟩
        (qsmul 1 (qsmul (1 / 2) (qmul ⟨1, 0, 0, 0⟩ (pureQuat ⟨1, 0, 0⟩)))))) := by
  have h1 : 0 < vnorm ⟨1, 0, 0⟩ := by
    rw [@vnorm_eq ⟨1, 0, 0⟩ 1 (by norm_num) (by norm_num)]
    norm_num
  have hq1 : qnorm ⟨1, 0, 0, 0⟩ = 1 := qnorm_eq (by norm_num) (by norm_num)
  have hgi : gradIMUAt ⟨1, 0, 0, 0⟩ ⟨0, 0, 1⟩ = qzero := by
    unfold gradIMUAt
    rw [qnormalize_unitW, vnormalize_unitZ, gradIMU_explicit]
    simp only [qzero, Quat.mk.injEq]
    norm_num
  have hnone : updateIMUX 1 1 ⟨1, 0, 0, 0⟩ ⟨1, 0, 0⟩ ⟨0, 0, 1⟩ = none := by
    unfold updateIMUX
    rw [if_pos h1, if_neg (fun hc => one_ne_zero (hq1 ▸ hc.2)),
      if_pos ⟨by rw [@vnorm_eq ⟨0, 0, 1⟩ 1 (by norm_num) (by norm_num)]; norm_num,
        by rw [hgi]; exact qnorm_qzero⟩]
  exact ⟨hnone, by rw [hnone]; exact fun hcon => Option.noConfusion hcon⟩

theorem c6_witness :
    0 < vnorm ⟨1, 0, 0⟩ ∧ 0 < vnorm ⟨0, 0, 1⟩ ∧ qnorm ⟨1, 0, 0, 0⟩ ≠ 0 ∧
    gradIMUAt ⟨1, 0, 0, 0⟩ ⟨0, 0, 1⟩ = qzero ∧
    gradMARGAt ⟨1, 0, 0, 0⟩ ⟨0, 0, 1⟩ ⟨1, 0, 0⟩ = qzero ∧
    updateIMUX 1 1 ⟨1, 0, 0, 0⟩ ⟨1, 0, 0⟩ ⟨0, 0, 1⟩ = none ∧
    updateMARGX 1 1 ⟨1, 0, 0, 0⟩ ⟨1, 0, 0⟩ ⟨0, 0, 1⟩ ⟨1, 0, 0⟩ = none := by
  have h1 : 0 < vnorm ⟨1, 0, 0⟩ := by
    rw [@vnorm_eq ⟨1, 0, 0⟩ 1 (by norm_num) (by norm_num)]
    norm_num
  have h2 : 0 < vnorm ⟨0, 0, 1⟩ := by
    rw [@vnorm_eq ⟨0, 0, 1⟩ 1 (by norm_num) (by norm_num)]
    norm_num
  have hq1 : qnorm ⟨1, 0, 0, 0⟩ ≠ 0 := by
    rw [qnorm_eq (q := ⟨1, 0, 0, 0⟩) (by norm_num : (0:ℝ) ≤ 1) (by norm_num)]
    norm_num
  have hgi : gradIMUAt ⟨1, 0, 0, 0⟩ ⟨0, 0, 1⟩ = qzero := by
    unfold gradIMUAt
    rw [qnormalize_unitW, vnormalize_unitZ, gradIMU_explicit]
    simp only [qzero, Quat.mk.injEq]
    norm_num
  have hb : margRefB ⟨1, 0, 0, 0⟩ ⟨1, 0, 0⟩ = (1, 0) := by
    unfold margRefB
    rw [hRot_unitW_unitX]
    norm_num
  have hgm : gradMARGAt ⟨1, 0, 0, 0⟩ ⟨0, 0, 1⟩ ⟨1, 0, 0⟩ = qzero := by
    unfold gradMARGAt
    rw [vnormalize_unitX, vnormalize_unitZ, qnormalize_unitW, hb]
    simp only [gradMARG, gradIMU, fIMU, fMag, jIMU1, jIMU2, jIMU3, jM4, jM5, jM6,
      qadd, qsmul, qzero, Quat.mk.injEq]
    norm_num
  refine ⟨h1, h2, hq1, hgi, hgm, ?_, ?_⟩
  · exact (c6_amended_zero_gradient_nan 1 1 ⟨1, 0, 0, 0⟩ ⟨1, 0, 0⟩ ⟨0, 0, 1⟩ ⟨1, 0, 0⟩
      h1 h2 h1 hq1 hgi hgm).1
  · exact (c6_amended_zero_gradient_nan 1 1 ⟨1, 0, 0, 0⟩ ⟨1, 0, 0⟩ ⟨0, 0, 1⟩ ⟨1, 0, 0⟩
      h1 h2 h1 hq1 hgi hgm).2

/-- C7 (amended): when the integrated quaternion has zero norm, the update
steps do not fail with an error — no DegenerateOrientation guard exists in
the source — they renormalize by dividing by the zero norm, so the
returned array is NaN-contaminated (`none`). -/
theorem c7_amended_zero_norm_nan (gain Dt : ℝ) (q : Quat) (g a m : V3)
    (hg : 0 < vnorm g) (hm : 0 < vnorm m)
    (hpreI : preIMU gain Dt q g a = qzero)
    (hpreM : preMARG gain Dt q g a m = qzero) :
    updateIMUX gain Dt q g a = none ∧ updateMARGX gain Dt q g a m = none := by
  have hI : updateIMUX gain Dt q g a = none := by
    unfold updateIMUX
    rw [if_pos hg]
    by_cases h1 : 0 < vnorm a ∧ qnorm q = 0
    · rw [if_pos h1]
    · rw [if_neg h1]
      by_cases h2 : 0 < vnorm a ∧ qnorm (gradIMUAt q a) = 0
      · rw [if_pos h2]
      · rw [if_neg h2, if_pos (by rw [hpreI]; exact qnorm_qzero)]
  refine ⟨hI, ?_⟩
  unfold updateMARGX
  rw [if_pos hg, if_pos hm]
  by_cases h1 : 0 < vnorm a ∧ qnorm q = 0
  · rw [if_pos h1]
  · rw [if_neg h1]
    by_cases h2 : 0 < vnorm a ∧ qnorm (gradMARGAt q a m) = 0
    · rw [if_pos h2]
    · rw [if_neg h2, if_pos (by rw [hpreM]; exact qnorm_qzero)]

/-- C7 counterexample: at a zero input quaternion with gyro `(1,0,0)` and
zero accel, the integrated quaternion is zero; the specification's guarded
step fails with DegenerateOrientation, but the source model performs the
division by the zero norm instead (`none`, a NaN result — no error is
raised). -/
theorem c7_counterexample :
    updateIMUGuarded 1 1 qzero ⟨1, 0, 0⟩ v3zero
        = Except.error UpdateError.degenerateOrientation ∧
    updateIMUX 1 1 qzero ⟨1, 0, 0⟩ v3zero = none := by
  have h1 : 0 < vnorm ⟨1, 0, 0⟩ := by
    rw [@vnorm_eq ⟨1, 0, 0⟩ 1 (by norm_num) (by norm_num)]
    norm_num
  have hpre : preIMU 1 1 qzero ⟨1, 0, 0⟩ v3zero = qzero := by
    simp only [preIMU, vnorm_v3zero, lt_irrefl, if_false]
    simp [qadd, qsmul, qmul, pureQuat, qzero]
  constructor
  · unfold updateIMUGuarded
    rw [if_pos h1, if_pos (by rw [hpre]; exact qnorm_qzero)]
  · unfold updateIMUX
    rw [if_pos h1,
      if_neg (fun hc => lt_irrefl (0:ℝ) (by simpa [vnorm_v3zero] using hc.1)),
      if_neg (fun hc => lt_irrefl (0:ℝ) (by simpa [vnorm_v3zero] using hc.1)),
      if_pos (by rw [hpre]; exact qnorm_qzero)]

theorem c7_witness :
    0 < vnorm ⟨1, 0, 0⟩ ∧
    preIMU 1 1 qzero ⟨1, 0, 0⟩ v3zero = qzero ∧
    preMARG 1 1 qzero ⟨1, 0, 0⟩ v3zero ⟨1, 0, 0⟩ = qzero ∧
    updateIMUX 1 1 qzero ⟨1, 0, 0⟩ v3zero = none ∧
    updateMARGX 1 1 qzero ⟨1, 0, 0⟩ v3zero ⟨1, 0, 0⟩ = none := by
  have h1 : 0 < vnorm ⟨1, 0, 0⟩ := by
    rw [@vnorm_eq ⟨1, 0, 0⟩ 1 (by norm_num) (by norm_num)]
    norm_num
  have hpreI : preIMU 1 1 qzero ⟨1, 0, 0⟩ v3zero = qzero := by
    simp only [preIMU, vnorm_v3zero, lt_irrefl, if_false]
    simp [qadd, qsmul, qmul, pureQuat, qzero]
  have hpreM : preMARG 1 1 qzero ⟨1, 0, 0⟩ v3zero ⟨1, 0, 0⟩ = qzero := by
    simp only [preMARG, vnorm_v3zero, lt_irrefl, if_false]
    simp [qadd, qsmul, qmul, pureQuat, qzero]
  refine ⟨h1, hpreI, hpreM, ?_, ?_⟩
  · exact (c7_amended_zero_norm_nan 1 1 qzero ⟨1, 0, 0⟩ v3zero ⟨1, 0, 0⟩
      h1 h1 hpreI hpreM).1
  · exact (c7_amended_zero_norm_nan 1 1 qzero ⟨1, 0, 0⟩ v3zero ⟨1, 0, 0⟩
      h1 h1 hpreI hpreM).2

/-- C5 (amended): for a unit-norm input quaternion and any samples, both
update steps return a unit-norm quaternion whenever they complete without
dividing by an exactly-zero denominator, i.e. whenever the definedness
models return an actual quaternion (`some`); the executions excluded are
precisely those in which the Python code produces a NaN result. -/
theorem c5_amended_unit_norm (gain Dt : ℝ) (q : Quat) (g a m : V3) (r s : Quat)
    (hq : qnorm q = 1)
    (hI : updateIMUX gain Dt q g a = some r)
    (hM : updateMARGX gain Dt q g a m = some s) :
    qnorm r = 1 ∧ qnorm s = 1 := by
  have hIMU : ∀ u : Quat, updateIMUX gain Dt q g a = some u → qnorm u = 1 := by
    intro u hu
    unfold updateIMUX at hu
    by_cases hg : 0 < vnorm g
    · rw [if_pos hg] at hu
      by_cases h1 : 0 < vnorm a ∧ qnorm q = 0
      · rw [if_pos h1] at hu
        exact Option.noConfusion hu
      · rw [if_neg h1] at hu
        by_cases h2 : 0 < vnorm a ∧ qnorm (gradIMUAt q a) = 0
        · rw [if_pos h2] at hu
          exact Option.noConfusion hu
        · rw [if_neg h2] at hu
          by_cases h3 : qnorm (preIMU gain Dt q g a) = 0
          · rw [if_pos h3] at hu
            exact Option.noConfusion hu
          · rw [if_neg h3] at hu
            have hne : preIMU gain Dt q g a ≠ qzero :=
              fun hz => h3 (by rw [hz]; exact qnorm_qzero)
            rw [← Option.some_inj.mp hu]
            exact qnorm_qnormalize hne
    · rw [if_neg hg] at hu
      rw [← Option.some_inj.mp hu]
      exact hq
  refine ⟨hIMU r hI, ?_⟩
  unfold updateMARGX at hM
  by_cases hg : 0 < vnorm g
  · rw [if_pos hg] at hM
    by_cases hm : 0 < vnorm m
    · rw [if_pos hm] at hM
      by_cases h1 : 0 < vnorm a ∧ qnorm q = 0
      · rw [if_pos h1] at hM
        exact Option.noConfusion hM
      · rw [if_neg h1] at hM
        by_cases h2 : 0 < vnorm a ∧ qnorm (gradMARGAt q a m) = 0
        · rw [if_pos h2] at hM
          exact Option.noConfusion hM
        · rw [if_neg h2] at hM
          by_cases h3 : qnorm (preMARG gain Dt q g a m) = 0
          · rw [if_pos h3] at hM
            exact Option.noConfusion hM
          · rw [if_neg h3] at hM
            have hne : preMARG gain Dt q g a m ≠ qzero :=
              fun hz => h3 (by rw [hz]; exact qnorm_qzero)
            rw [← Option.some_inj.mp hM]
            exact qnorm_qnormalize hne
    · rw [if_neg hm] at hM
      exact hIMU s hM
  · rw [if_neg hg] at hM
    rw [← Option.some_inj.mp hM]
    exact hq

/-- C5 counterexample: with gain `sqrt(5)/2` and `Dt = 1`, the unit-norm
quaternion `(0,1,0,0)` with gyro `(0,-1,0)` and accel `(1,0,0)` integrates
to the zero quaternion, and the returned value (the division of zero by
its zero norm) does not have unit norm. -/
theorem c5_counterexample :
    qnorm ⟨0, 1, 0, 0⟩ = 1 ∧
    qnorm (updateIMU (Real.sqrt 5 / 2) 1 ⟨0, 1, 0, 0⟩ ⟨0, -1, 0⟩ ⟨1, 0, 0⟩) ≠ 1 := by
  have hq1 : qnorm ⟨0, 1, 0, 0⟩ = 1 := qnorm_eq (by norm_num) (by norm_num)
  have hg1 : 0 < vnorm ⟨0, -1, 0⟩ := by
    rw [@vnorm_eq ⟨0, -1, 0⟩ 1 (by norm_num) (by norm_num)]
    norm_num
  have ha1 : 0 < vnorm ⟨1, 0, 0⟩ := by
    rw [@vnorm_eq ⟨1, 0, 0⟩ 1 (by norm_num) (by norm_num)]
    norm_num
  have h5 : (0:ℝ) < Real.sqrt 5 := Real.sqrt_pos.mpr (by norm_num)
  have hgrad : gradIMUAt ⟨0, 1, 0, 0⟩ ⟨1, 0, 0⟩ = ⟨0, 4, 0, -2⟩ := by
    unfold gradIMUAt
    rw [qnormalize_unitX, vnormalize_unitX, gradIMU_explicit]
    simp only [Quat.mk.injEq]
    norm_num
  have hgn : qnorm ⟨0, 4, 0, -2⟩ = 2 * Real.sqrt 5 := by
    apply qnorm_eq (by positivity)
    rw [mul_pow, Real.sq_sqrt (by norm_num : (0:ℝ) ≤ 5)]
    norm_num
  have hpre : preIMU (Real.sqrt 5 / 2) 1 ⟨0, 1, 0, 0⟩ ⟨0, -1, 0⟩ ⟨1, 0, 0⟩ = qzero := by
    simp only [preIMU, if_pos ha1, hgrad, hgn]
    simp only [qmul, pureQuat, qsmul, qsub, qadd, qdivs, qzero, Quat.mk.injEq]
    norm_num
    constructor
    · field_simp
      ring
    · field_simp
      ring
  have hupdate : updateIMU (Real.sqrt 5 / 2) 1 ⟨0, 1, 0, 0⟩ ⟨0, -1, 0⟩ ⟨1, 0, 0⟩ = qzero := by
    unfold updateIMU
    rw [if_pos hg1, hpre]
    simp [qnormalize, qdivs, qzero]
  refine ⟨hq1, ?_⟩
  rw [hupdate, qnorm_qzero]
  norm_num

theorem c5_witness :
    qnorm ⟨1, 0, 0, 0⟩ = 1 ∧
    updateIMUX 1 1 ⟨1, 0, 0, 0⟩ ⟨1, 0, 0⟩ v3zero = some (qnormalize ⟨1, 1 / 2, 0, 0⟩) ∧
    updateMARGX 1 1 ⟨1, 0, 0, 0⟩ ⟨1, 0, 0⟩ v3zero v3zero = some (qnormalize ⟨1, 1 / 2, 0, 0⟩) ∧
    qnorm (qnormalize ⟨1, 1 / 2, 0, 0⟩) = 1 := by
  have hq1 : qnorm ⟨1, 0, 0, 0⟩ = 1 := qnorm_eq (by norm_num) (by norm_num)
  have hg1 : 0 < vnorm ⟨1, 0, 0⟩ := by
    rw [@vnorm_eq ⟨1, 0, 0⟩ 1 (by norm_num) (by norm_num)]
    norm_num
  have hpre : preIMU 1 1 ⟨1, 0, 0, 0⟩ ⟨1, 0, 0⟩ v3zero = ⟨1, 1 / 2, 0, 0⟩ := by
    simp only [preIMU, vnorm_v3zero, lt_irrefl, if_false]
    simp [qadd, qsmul, qmul, pureQuat]
  have hpne : qnorm (preIMU 1 1 ⟨1, 0, 0, 0⟩ ⟨1, 0, 0⟩ v3zero) ≠ 0 := by
    rw [hpre, Ne, qnorm_eq_zero_iff]
    intro hcon
    simp only [qzero, Quat.mk.injEq] at hcon
    norm_num at hcon
  have hIeval : updateIMUX 1 1 ⟨1, 0, 0, 0⟩ ⟨1, 0, 0⟩ v3zero
      = some (qnormalize ⟨1, 1 / 2, 0, 0⟩) := by
    unfold updateIMUX
    rw [if_pos hg1,
      if_neg (fun hc => by rw [vnorm_v3zero] at hc; exact lt_irrefl 0 hc.1),
      if_neg (fun hc => by rw [vnorm_v3zero] at hc; exact lt_irrefl 0 hc.1),
      if_neg hpne, hpre]
  have hMeval : updateMARGX 1 1 ⟨1, 0, 0, 0⟩ ⟨1, 0, 0⟩ v3zero v3zero
      = some (qnormalize ⟨1, 1 / 2, 0, 0⟩) := by
    unfold updateMARGX
    rw [if_pos hg1, if_neg (fun hc => by rw [vnorm_v3zero] at hc; exact lt_irrefl 0 hc)]
    exact hIeval
  refine ⟨hq1, hIeval, hMeval, ?_⟩
  exact (c5_amended_unit_norm 1 1 ⟨1, 0, 0, 0⟩ ⟨1, 0, 0⟩ v3zero v3zero
    (qnormalize ⟨1, 1 / 2, 0, 0⟩) (qnormalize ⟨1, 1 / 2, 0, 0⟩) hq1 hIeval hMeval).1
